import Mathlib

/-!
Shallow embedding of the simple vehicle-routing example (src/main.py) and of
the list-variable local-search engine its specification describes.

Python floats are modelled by real numbers, Python ints by integers, and a
Python dict by an association list queried with List.lookup (a missing key,
which would raise KeyError, is a none result).
-/

namespace VRP

/-- Embeds the Location dataclass of src/main.py: an integer id, two
floating-point coordinates, and the precomputed distance dictionary mapping
location ids to integer travel costs. -/
structure Location where
  id : ℤ
  latitude : ℝ
  longitude : ℝ
  distance_dict : List (ℤ × ℤ)

instance : Inhabited Location := ⟨⟨0, 0, 0, []⟩⟩

/-- Embeds Location.distance_to of src/main.py:
round(((self.latitude - other.latitude)**2 + (self.longitude - other.longitude)**2)**0.5 * 100).
The Python power 0.5 is the real power with exponent 0.5. -/
noncomputable def Location.distance_to (self other : Location) : ℤ :=
  round ((((self.latitude - other.latitude) ^ 2 +
           (self.longitude - other.longitude) ^ 2) ^ ((0.5 : ℝ))) * 100)

/-- The Euclidean distance between the 2-D coordinates of two Locations,
written with the square root, as the specification words it. -/
noncomputable def euclideanDistance (a b : Location) : ℝ :=
  Real.sqrt ((a.latitude - b.latitude) ^ 2 + (a.longitude - b.longitude) ^ 2)

theorem distance_to_eq_round_euclidean (a b : Location) :
    a.distance_to b = round (euclideanDistance a b * 100) := by
  unfold Location.distance_to euclideanDistance
  rw [show ((0.5 : ℝ)) = 1 / 2 by norm_num, ← Real.sqrt_eq_rpow]

theorem distance_to_comm (a b : Location) : a.distance_to b = b.distance_to a := by
  unfold Location.distance_to
  ring_nf

theorem distance_to_nonneg (a b : Location) : 0 ≤ a.distance_to b := by
  rw [distance_to_eq_round_euclidean, round_eq, show ((0 : ℤ)) = ⌊(0 : ℝ)⌋ by simp]
  apply Int.floor_le_floor
  have h0 : (0 : ℝ) ≤ euclideanDistance a b * 100 :=
    mul_nonneg (Real.sqrt_nonneg _) (by norm_num)
  linarith

theorem distance_to_self (a : Location) : a.distance_to a = 0 := by
  rw [distance_to_eq_round_euclidean]
  unfold euclideanDistance
  simp

/-- Embeds the Vehicle planning entity of src/main.py: a fixed start Location
and the mutable ordered list of visited Locations (the list variable). -/
structure Vehicle where
  start_location : Location
  visits : List Location

instance : Inhabited Vehicle := ⟨⟨default, []⟩⟩

/-- The loop body of Vehicle.total_distance of src/main.py: walking the visit
list while threading the previous stop, it adds the dictionary cost of each
edge and, at the end, the cost of the edge back to the start location (looked
up by startId in the last stop's dictionary). A missing dictionary key
(Python KeyError) yields none. -/
def legTotal (prev : Location) (startId : ℤ) : List Location → Option ℤ
  | [] => prev.distance_dict.lookup startId
  | x :: xs => do
      let d ← prev.distance_dict.lookup x.id
      let rest ← legTotal x startId xs
      pure (d + rest)

/-- Embeds Vehicle.total_distance of src/main.py: from the start location
through each visit in order and back to the start, each edge cost looked up
in the previous stop's distance dictionary. -/
def Vehicle.total_distance (v : Vehicle) : Option ℤ :=
  legTotal v.start_location v.start_location.id v.visits

/-- Embeds the RoutingPlan planning solution of src/main.py: the vehicle
list, the Location list serving as the Visit value range, and the score slot
(defaulting to Python None). -/
structure RoutingPlan where
  vehicles : List Vehicle
  visits : List Location
  score : Option ℤ := none

/-- Sum of Vehicle.total_distance over a vehicle list; none as soon as one
vehicle's total fails a dictionary lookup. -/
def totalsSum : List Vehicle → Option ℤ
  | [] => some 0
  | v :: vs => do
      let d ← v.total_distance
      let rest ← totalsSum vs
      pure (d + rest)

/-- Embeds vrp_constraints of src/main.py: each Vehicle is penalized by its
total_distance with weight SimpleScore.ONE, so the full score of a solution
is the negated sum of the vehicles' total distances. -/
def full_score (plan : RoutingPlan) : Option ℤ :=
  (totalsSum plan.vehicles).map (fun s => -s)

/-- The route of a vehicle as the specification words it: from the start
Location through each Visit in list order and back to the start. -/
def routePoints (v : Vehicle) : List Location :=
  v.start_location :: v.visits ++ [v.start_location]

/-- The travel cost of a vehicle route as the specification words it: the
sum of the dictionary-looked-up costs of the consecutive edges of
routePoints. -/
def specRouteCost (v : Vehicle) : Option ℤ :=
  ((routePoints v).zip (routePoints v).tail).mapM
      (fun e : Location × Location => e.1.distance_dict.lookup e.2.id) |>.map List.sum

/-- The full score as the specification words it: the negation of the sum,
over every Vehicle, of its route travel cost. -/
def specFullScore (plan : RoutingPlan) : Option ℤ :=
  (plan.vehicles.mapM specRouteCost).map (fun ds => -ds.sum)

theorem legTotal_eq_spec (prev : Location) (startId : ℤ) (xs : List Location)
    (last : Location) (hlast : last.id = startId) :
    legTotal prev startId xs =
      (((prev :: xs).zip (xs ++ [last])).mapM
          (fun e : Location × Location => e.1.distance_dict.lookup e.2.id)).map List.sum := by
  induction xs generalizing prev with
  | nil =>
      simp only [legTotal, List.nil_append, List.zip_cons_cons, List.zip_nil_right,
        List.mapM_cons, List.mapM_nil, hlast]
      cases prev.distance_dict.lookup startId <;> simp
  | cons x xs ih =>
      simp only [legTotal, List.cons_append, List.zip_cons_cons, List.mapM_cons]
      rw [ih x]
      cases prev.distance_dict.lookup x.id with
      | none => simp
      | some d =>
          cases h : (((x :: xs).zip (xs ++ [last])).mapM
              (fun e : Location × Location => e.1.distance_dict.lookup e.2.id)) with
          | none => simp [h, Option.bind]
          | some l => simp [h, Option.bind, add_comm]

theorem total_distance_eq_specRouteCost (v : Vehicle) :
    v.total_distance = specRouteCost v := by
  unfold Vehicle.total_distance specRouteCost routePoints
  have hz : (v.start_location :: (v.visits ++ [v.start_location])).zip
        (v.visits ++ [v.start_location]) =
      (v.start_location :: v.visits).zip (v.visits ++ [v.start_location]) := by
    have h1 : v.start_location :: (v.visits ++ [v.start_location]) =
        (v.start_location :: v.visits) ++ [v.start_location] := by simp
    have h2 : v.visits ++ [v.start_location] =
        (v.visits ++ [v.start_location]) ++ ([] : List Location) := by simp
    rw [h1]
    conv_lhs => rw [h2]
    rw [List.zip_append (by simp)]
    simp
  simp only [List.cons_append, List.tail_cons]
  rw [hz, legTotal_eq_spec v.start_location v.start_location.id v.visits
    v.start_location rfl]

theorem full_score_eq_specFullScore (plan : RoutingPlan) :
    full_score plan = specFullScore plan := by
  unfold full_score specFullScore
  induction plan.vehicles with
  | nil => rfl
  | cons v vs ih =>
      simp only [totalsSum, List.mapM_cons, total_distance_eq_specRouteCost]
      cases h : specRouteCost v with
      | none => simp
      | some d =>
          cases h2 : totalsSum vs with
          | none =>
              have := ih
              cases h3 : vs.mapM specRouteCost with
              | none => simp
              | some l => rw [h2, h3] at this; simp at this
          | some s =>
              have := ih
              cases h3 : vs.mapM specRouteCost with
              | none => rw [h2, h3] at this; simp at this
              | some l =>
                  rw [h2, h3] at this
                  simp at this
                  simp [this]

theorem lookup_mem {l : List (ℤ × ℤ)} {k b : ℤ}
    (h : l.lookup k = some b) : (k, b) ∈ l := by
  rcases List.lookup_eq_some_iff.1 h with ⟨l₁, l₂, rfl, h2⟩
  simp

/-- A dictionary entry whose value is a travel cost produced by
Location.distance_to, as the precomputed distance mappings of the data model
always are. -/
def DistanceEntry (p : ℤ × ℤ) : Prop :=
  ∃ a b : Location, p.2 = a.distance_to b

/-- A Location whose distance dictionary holds only travel costs produced by
Location.distance_to. -/
def distValued (l : Location) : Prop :=
  ∀ p ∈ l.distance_dict, DistanceEntry p

/-- A Vehicle all of whose reachable distance dictionaries (its start
location's and its visits') hold only Location.distance_to travel costs. -/
def vehicleDistValued (v : Vehicle) : Prop :=
  distValued v.start_location ∧ ∀ x ∈ v.visits, distValued x

theorem lookup_nonneg_of_distValued {l : Location} {k d : ℤ}
    (hl : distValued l) (h : l.distance_dict.lookup k = some d) : 0 ≤ d := by
  rcases hl (k, d) (lookup_mem h) with ⟨a, b, hab⟩
  simp only at hab
  rw [hab]
  exact distance_to_nonneg a b

theorem legTotal_nonneg {prev : Location} {startId : ℤ} {xs : List Location}
    {t : ℤ} (hprev : distValued prev) (hxs : ∀ x ∈ xs, distValued x)
    (h : legTotal prev startId xs = some t) : 0 ≤ t := by
  induction xs generalizing prev t with
  | nil => exact lookup_nonneg_of_distValued hprev h
  | cons x xs ih =>
      simp only [legTotal, Option.bind_eq_bind, Option.bind_eq_some] at h
      rcases h with ⟨d, hd, h⟩
      rcases h with ⟨rest, hrest, h⟩
      have ht : d + rest = t := by simpa using h
      subst ht
      have h1 : 0 ≤ d := lookup_nonneg_of_distValued hprev hd
      have h2 : 0 ≤ rest :=
        ih (hxs x (by simp)) (fun y hy => hxs y (by simp [hy])) hrest
      linarith

theorem total_distance_nonneg {v : Vehicle} {d : ℤ}
    (hv : vehicleDistValued v) (h : v.total_distance = some d) : 0 ≤ d :=
  legTotal_nonneg hv.1 hv.2 h

theorem totalsSum_nonneg {vs : List Vehicle} {s : ℤ}
    (hvs : ∀ v ∈ vs, vehicleDistValued v) (h : totalsSum vs = some s) : 0 ≤ s := by
  induction vs generalizing s with
  | nil => simp [totalsSum] at h; omega
  | cons v vs ih =>
      simp only [totalsSum, Option.bind_eq_bind, Option.bind_eq_some] at h
      rcases h with ⟨d, hd, rest, hrest, h⟩
      have hs2 : d + rest = s := by simpa using h
      subst hs2
      have h1 : 0 ≤ d := total_distance_nonneg (hvs v (by simp)) hd
      have h2 : 0 ≤ rest := ih (fun w hw => hvs w (by simp [hw])) hrest
      linarith

theorem full_score_nonpos {plan : RoutingPlan} {sc : ℤ}
    (hp : ∀ v ∈ plan.vehicles, vehicleDistValued v)
    (h : full_score plan = some sc) : sc ≤ 0 := by
  unfold full_score at h
  cases hs : totalsSum plan.vehicles with
  | none => rw [hs] at h; simp at h
  | some s =>
      rw [hs] at h
      have h2 : -s = sc := by simpa using h
      have := totalsSum_nonneg hp hs
      omega

/-- The self entry of a vehicle's start location: its distance dictionary
maps the start location's own id to the start-to-start travel cost, as the
precomputed mapping built by generate_problem does. -/
def selfEntry (v : Vehicle) : Prop :=
  v.start_location.distance_dict.lookup v.start_location.id =
    some (v.start_location.distance_to v.start_location)

theorem total_distance_of_empty {v : Vehicle} (he : v.visits = [])
    (hs : selfEntry v) : v.total_distance = some 0 := by
  unfold Vehicle.total_distance
  rw [he]
  unfold legTotal
  rw [hs, distance_to_self]

theorem totalsSum_of_all_empty {vs : List Vehicle}
    (h : ∀ v ∈ vs, v.visits = [] ∧ selfEntry v) : totalsSum vs = some 0 := by
  induction vs with
  | nil => rfl
  | cons v vs ih =>
      have hv := h v (by simp)
      have hrest : totalsSum vs = some 0 := ih (fun w hw => h w (by simp [hw]))
      simp [totalsSum, total_distance_of_empty hv.1 hv.2, hrest]

theorem full_score_of_all_empty {plan : RoutingPlan}
    (h : ∀ v ∈ plan.vehicles, v.visits = [] ∧ selfEntry v) :
    full_score plan = some 0 := by
  unfold full_score
  rw [totalsSum_of_all_empty h]
  simp

/-!
Embedding of generate_problem of src/main.py. The Mersenne–Twister stream of
Random(0) is abstracted into two given draw sequences: coord n is the n-th
randint(0, 100) draw (reduced mod 101 into the inclusive range 0..100 that
randint returns), consumed two per location (latitude then longitude), and
pick k is the k-th random.choice draw (reduced mod 100 into a valid index of
the 100-element location list). Both runs of the program use the same seed 0
and hence the same sequences.
-/

/-- A Location as first constructed by generate_problem: id i, the two
integer coordinate draws, and a still-empty distance dictionary. -/
def baseLoc (coord : ℕ → ℕ) (i : ℕ) : Location :=
  ⟨(i : ℤ), ((coord (2 * i) % 101 : ℕ) : ℝ), ((coord (2 * i + 1) % 101 : ℕ) : ℝ), []⟩

/-- A Location after the fill loop of generate_problem: its distance
dictionary maps every id j in range(100) to distance_to of the j-th
location. distance_to reads only coordinates, so the still-empty
dictionaries of the base locations do not matter. -/
noncomputable def genLocation (coord : ℕ → ℕ) (i : ℕ) : Location :=
  { baseLoc coord i with distance_dict :=
      ((List.range 100).map
        (fun j : ℕ => ((j : ℤ), (baseLoc coord i).distance_to (baseLoc coord j)))) }

/-- The 100-element location list built by generate_problem. -/
noncomputable def genLocations (coord : ℕ → ℕ) : List Location :=
  (List.range 100).map (genLocation coord)

/-- Embeds generate_problem of src/main.py: 100 locations with filled
distance dictionaries, and 4 vehicles whose start locations are chosen from
the location list, the same list that is returned as the Visit value
range. -/
noncomputable def generate_problem (coord pick : ℕ → ℕ) : RoutingPlan :=
  RoutingPlan.mk
    ((List.range 4).map
      (fun k => Vehicle.mk ((genLocations coord).getD (pick k % 100) default) []))
    (genLocations coord)
    none

theorem genLocations_length (coord : ℕ → ℕ) : (genLocations coord).length = 100 := by
  simp [genLocations]

theorem mem_genLocations {coord : ℕ → ℕ} {l : Location} :
    l ∈ genLocations coord ↔ ∃ i < 100, l = genLocation coord i := by
  simp only [genLocations, List.mem_map, List.mem_range]
  constructor
  · rintro ⟨i, hi, rfl⟩; exact ⟨i, hi, rfl⟩
  · rintro ⟨i, hi, rfl⟩; exact ⟨i, hi, rfl⟩

theorem lookup_range_map (n : ℕ) (f : ℕ → ℤ) (j : ℕ) (hj : j < n) :
    ((List.range n).map (fun k : ℕ => ((k : ℤ), f k))).lookup (j : ℤ) = some (f j) := by
  induction n with
  | zero => omega
  | succ n ih =>
      rw [List.range_succ, List.map_append, List.lookup_append]
      by_cases h : j < n
      · rw [ih h]; rfl
      · have hjn : j = n := by omega
        subst hjn
        have hnone : ((List.range j).map (fun k : ℕ => ((k : ℤ), f k))).lookup (j : ℤ) = none := by
          rw [List.lookup_eq_none_iff]
          rintro p hp
          rcases List.mem_map.1 hp with ⟨k, hk, rfl⟩
          rcases List.mem_range.1 hk with hlt
          simp only [bne_iff_ne, ne_eq, Int.natCast_inj]
          omega
        rw [hnone]
        simp [List.lookup]

theorem genLocation_lookup (coord : ℕ → ℕ) (i j : ℕ) (hj : j < 100) :
    (genLocation coord i).distance_dict.lookup (j : ℤ) =
      some ((baseLoc coord i).distance_to (baseLoc coord j)) :=
  lookup_range_map 100 (fun j => (baseLoc coord i).distance_to (baseLoc coord j)) j hj

theorem genLocation_id (coord : ℕ → ℕ) (i : ℕ) : (genLocation coord i).id = (i : ℤ) := rfl

theorem genLocation_distValued (coord : ℕ → ℕ) (i : ℕ) :
    distValued (genLocation coord i) := by
  intro p hp
  rcases List.mem_map.1 hp with ⟨j, hj, rfl⟩
  exact ⟨baseLoc coord i, baseLoc coord j, rfl⟩

theorem legTotal_isSome_of_gen {coord : ℕ → ℕ} {prev : Location}
    {startId : ℤ} {xs : List Location} {j : ℕ} (hj : j < 100)
    (hid : startId = (j : ℤ)) (hprev : prev ∈ genLocations coord)
    (hxs : ∀ x ∈ xs, x ∈ genLocations coord) :
    (legTotal prev startId xs).isSome := by
  induction xs generalizing prev with
  | nil =>
      rcases mem_genLocations.1 hprev with ⟨i, hi, rfl⟩
      rw [legTotal, hid, genLocation_lookup coord i j hj]
      rfl
  | cons x xs ih =>
      have hx : x ∈ genLocations coord := hxs x (by simp)
      rcases mem_genLocations.1 hprev with ⟨i, hi, rfl⟩
      rcases mem_genLocations.1 hx with ⟨m, hm, hxeq⟩
      have hlook : (genLocation coord i).distance_dict.lookup x.id =
          some ((baseLoc coord i).distance_to (baseLoc coord m)) := by
        rw [hxeq, genLocation_id]
        exact genLocation_lookup coord i m hm
      have hrest : (legTotal x startId xs).isSome :=
        ih hx (fun y hy => hxs y (by simp [hy]))
      rcases Option.isSome_iff_exists.1 hrest with ⟨t, ht⟩
      rw [legTotal, Option.bind_eq_bind, hlook, ht]
      rfl

/-- A concrete location at the origin whose dictionary holds only its own
self distance. -/
def locO : Location := ⟨0, 0, 0, [(0, 0)]⟩

/-- A concrete vehicle standing at locO with an empty route. -/
def vehO : Vehicle := ⟨locO, []⟩

/-- A concrete 3-vehicle, 0-visit routing plan. -/
def planO : RoutingPlan := ⟨[vehO, vehO, vehO], [locO], none⟩

theorem locO_self_distance : locO.distance_to locO = 0 := distance_to_self locO

/-- C1: for every Solution, the full score equals the negation of the sum,
over every Vehicle, of the travel cost from the Vehicle's start Location
through each of its Visits in list order and back to the start Location,
each edge cost looked up in the precomputed distance mapping. -/
theorem claim_c1 (plan : RoutingPlan) : full_score plan = specFullScore plan :=
  full_score_eq_specFullScore plan

/-- C2: for every pair of Locations a and b, the travel cost equals
round(euclidean_distance(a, b) * 100) computed from the two Locations' 2-D
coordinates; the result is an integer by the type of round. -/
theorem claim_c2 (a b : Location) :
    a.distance_to b = round (euclideanDistance a b * 100) :=
  distance_to_eq_round_euclidean a b

/-- C3: for every pair of Locations a and b, cost(a, b) equals cost(b, a):
Location.distance_to is a symmetric function of its two arguments. -/
theorem claim_c3 (a b : Location) : a.distance_to b = b.distance_to a :=
  distance_to_comm a b

/-- C5: every Vehicle whose visit list is empty has route distance 0, its
start location's dictionary holding the start-to-start travel cost as the
precomputed mappings do; consequently a Solution all of whose Vehicles have
empty visit lists (in particular a 3-vehicle, 0-visit one) has full score
0. -/
theorem claim_c5 :
    (∀ v : Vehicle, v.visits = [] → selfEntry v → v.total_distance = some 0) ∧
    (∀ plan : RoutingPlan, (∀ v ∈ plan.vehicles, v.visits = [] ∧ selfEntry v) →
      full_score plan = some 0) :=
  ⟨fun _ he hs => total_distance_of_empty he hs, fun _ h => full_score_of_all_empty h⟩

/-- Witness for C5: the concrete 3-vehicle, 0-visit plan planO satisfies the
hypotheses and its full score evaluates to 0. -/
theorem claim_c5_witness :
    vehO.visits = [] ∧ selfEntry vehO ∧ full_score planO = some 0 := by
  have hself : selfEntry vehO := by
    show List.lookup (0 : ℤ) [((0 : ℤ), (0 : ℤ))] = some (locO.distance_to locO)
    rw [locO_self_distance]
    rfl
  refine ⟨rfl, hself, claim_c5.2 planO ?_⟩
  intro v hv
  have : v = vehO := by
    simp only [planO, List.mem_cons, List.not_mem_nil, or_false] at hv
    rcases hv with h | h | h <;> exact h
  rw [this]
  exact ⟨rfl, hself⟩

/-- C8: distance_to is nonnegative and zero on the diagonal; consequently
the total distance of a Vehicle whose reachable dictionaries hold only
distance_to travel costs is nonnegative, and the full score of a Solution
made of such Vehicles is nonpositive. -/
theorem claim_c8 :
    (∀ a b : Location, 0 ≤ a.distance_to b) ∧
    (∀ a : Location, a.distance_to a = 0) ∧
    (∀ (v : Vehicle) (d : ℤ), vehicleDistValued v →
      v.total_distance = some d → 0 ≤ d) ∧
    (∀ (plan : RoutingPlan) (sc : ℤ), (∀ v ∈ plan.vehicles, vehicleDistValued v) →
      full_score plan = some sc → sc ≤ 0) :=
  ⟨distance_to_nonneg, distance_to_self,
    fun _ _ hv h => total_distance_nonneg hv h,
    fun _ _ hp h => full_score_nonpos hp h⟩

/-- Witness for C8: the concrete plan planO is distance-valued, its full
score evaluates to some 0, and 0 is nonpositive. -/
theorem claim_c8_witness :
    vehicleDistValued vehO ∧ full_score planO = some 0 ∧ (0 : ℤ) ≤ 0 := by
  have hval : vehicleDistValued vehO := by
    constructor
    · intro p hp
      have hpe : p = ((0 : ℤ), (0 : ℤ)) := by
        simpa [vehO, locO] using hp
      exact ⟨locO, locO, by rw [hpe, locO_self_distance]⟩
    · intro x hx
      simp [vehO] at hx
  have hmem : ∀ v ∈ planO.vehicles, vehicleDistValued v := by
    intro v hv
    have : v = vehO := by
      simp only [planO, List.mem_cons, List.not_mem_nil, or_false] at hv
      rcases hv with h | h | h <;> exact h
    rw [this]; exact hval
  have hscore : full_score planO = some 0 := by
    have hself : selfEntry vehO := by
      show List.lookup (0 : ℤ) [((0 : ℤ), (0 : ℤ))] = some (locO.distance_to locO)
      rw [locO_self_distance]
      rfl
    refine full_score_of_all_empty ?_
    intro v hv
    have : v = vehO := by
      simp only [planO, List.mem_cons, List.not_mem_nil, or_false] at hv
      rcases hv with h | h | h <;> exact h
    rw [this]; exact ⟨rfl, hself⟩
  exact ⟨hval, hscore, claim_c8.2.2.2 planO 0 hmem hscore⟩

/-- C6 counterexample: a RoutingPlan with an empty Location set and zero
vehicles is created by the plain dataclass constructor with no error raised,
refuting the claim that such a Solution cannot be created. -/
theorem claim_c6_counterexample :
    ∃ plan : RoutingPlan, plan.visits = [] ∧ plan.vehicles = [] :=
  ⟨RoutingPlan.mk [] [] none, rfl, rfl⟩

/-- C6 amended: RoutingPlan construction performs no validation and always
succeeds, storing the given fields unchanged even when the Location set is
empty or the vehicle count is zero; no InvalidProblem error exists in the
code. The problem built by generate_problem nevertheless always has a
nonempty Location set and a nonzero vehicle count. -/
theorem claim_c6_amended :
    (∀ (vs : List Vehicle) (ls : List Location) (sc : Option ℤ),
      (RoutingPlan.mk vs ls sc).vehicles = vs ∧
      (RoutingPlan.mk vs ls sc).visits = ls ∧
      (RoutingPlan.mk vs ls sc).score = sc) ∧
    (∀ coord pick : ℕ → ℕ,
      (generate_problem coord pick).visits ≠ [] ∧
      (generate_problem coord pick).vehicles ≠ []) := by
  refine ⟨fun vs ls sc => ⟨rfl, rfl, rfl⟩, fun coord pick => ⟨?_, ?_⟩⟩
  · intro h
    have := congrArg List.length h
    rw [show (generate_problem coord pick).visits = genLocations coord from rfl,
      genLocations_length] at this
    simp at this
  · intro h
    have := congrArg List.length h
    simp [generate_problem] at this

/-- C9: in any RoutingPlan produced by generate_problem, every Location's
distance dictionary contains an entry for every generated Location's id,
its own included; therefore Vehicle.total_distance fails no dictionary
lookup for any vehicle assembled from the generated Locations, the
start-to-start lookup of an empty route included. -/
theorem claim_c9 (coord pick : ℕ → ℕ) :
    (∀ l ∈ (generate_problem coord pick).visits,
      ∀ m ∈ (generate_problem coord pick).visits,
        (l.distance_dict.lookup m.id).isSome) ∧
    (∀ v : Vehicle, v.start_location ∈ (generate_problem coord pick).visits →
      (∀ x ∈ v.visits, x ∈ (generate_problem coord pick).visits) →
      v.total_distance.isSome) := by
  constructor
  · intro l hl m hm
    rcases mem_genLocations.1 hl with ⟨i, hi, rfl⟩
    rcases mem_genLocations.1 hm with ⟨j, hj, rfl⟩
    rw [genLocation_id, genLocation_lookup coord i j hj]
    rfl
  · intro v hstart hvisits
    rcases mem_genLocations.1 hstart with ⟨j, hj, hjeq⟩
    have hid : v.start_location.id = (j : ℤ) := by rw [hjeq]; rfl
    exact legTotal_isSome_of_gen hj hid hstart hvisits

/-- Witness for C9: with the all-zero draw sequences, the first generated
location is a member of the generated plan's value range and a vehicle
standing there with an empty route has a defined total distance. -/
theorem claim_c9_witness :
    genLocation (fun _ => 0) 0 ∈ (generate_problem (fun _ => 0) (fun _ => 0)).visits ∧
    (Vehicle.mk (genLocation (fun _ => 0) 0) []).total_distance.isSome := by
  have hmem : genLocation (fun _ => 0) 0 ∈
      (generate_problem (fun _ => 0) (fun _ => 0)).visits := by
    show genLocation (fun _ => 0) 0 ∈ genLocations (fun _ => 0)
    exact mem_genLocations.2 ⟨0, by omega, rfl⟩
  exact ⟨hmem, (claim_c9 (fun _ => 0) (fun _ => 0)).2
    (Vehicle.mk (genLocation (fun _ => 0) 0) []) hmem (by intro x hx; simp at hx)⟩

/-- C10: the plan produced by generate_problem always has exactly 100
Locations and 4 Vehicles, and each Vehicle's start location is an element of
the same Location list that is supplied as the Visit value range, so every
start Location is also an assignable Visit. -/
theorem claim_c10 (coord pick : ℕ → ℕ) :
    (generate_problem coord pick).visits.length = 100 ∧
    (generate_problem coord pick).vehicles.length = 4 ∧
    ∀ k : Fin 4,
      (((generate_problem coord pick).vehicles.getD k default).start_location) ∈
        (generate_problem coord pick).visits := by
  refine ⟨genLocations_length coord, by simp [generate_problem], ?_⟩
  intro k
  have hk : (k : ℕ) < ((List.range 4).map
      (fun n => Vehicle.mk ((genLocations coord).getD (pick n % 100) default) [])).length := by
    simp [k.isLt]
  have hveh : (generate_problem coord pick).vehicles.getD (k : ℕ) default =
      Vehicle.mk ((genLocations coord).getD (pick (k : ℕ) % 100) default) [] := by
    show ((List.range 4).map
        (fun n => Vehicle.mk ((genLocations coord).getD (pick n % 100) default) [])).getD
          (k : ℕ) default = _
    rw [List.getD_eq_getElem?_getD, List.getElem?_eq_getElem hk]
    simp
  rw [hveh]
  have hlt : pick (k : ℕ) % 100 < (genLocations coord).length := by
    rw [genLocations_length]
    omega
  show (genLocations coord).getD (pick (k : ℕ) % 100) default ∈ genLocations coord
  rw [List.getD_eq_getElem?_getD, List.getElem?_eq_getElem hlt]
  exact List.getElem_mem hlt

/-!
The optimization engine the specification describes is not in the source
repository (it is supplied by the external solver framework), so its Move
machinery is modelled from the specification, sections 4.2 and 4.3.
-/

/-- Modelled from the spec: a Move is a tagged, reversible description of a
single local perturbation; it owns only vehicle indices and positions, never
direct references. The three kinds are relocate, swap and
segment-reverse. -/
inductive Move where
  | relocate (srcVehicle srcPos dstVehicle dstPos : ℕ)
  | swap (vehicleA posA vehicleB posB : ℕ)
  | segmentReverse (vehicle lo hi : ℕ)

/-- The vehicle of a plan at a given index (default vehicle out of range). -/
def vehicleAt (plan : RoutingPlan) (i : ℕ) : Vehicle :=
  plan.vehicles.getD i default

/-- Modelled from the spec: applying a Move mutates the solution. Relocate
removes the visit at the source position and reinserts it at the target
position, possibly in another vehicle; swap exchanges the visits at two
positions; segment-reverse reverses a contiguous sub-sequence of one
vehicle's visit list. -/
def Move.apply (plan : RoutingPlan) : Move → RoutingPlan
  | .relocate i p j q =>
      let vi := vehicleAt plan i
      let x := vi.visits.getD p default
      if i = j then
        { plan with vehicles := (plan.vehicles.set i
            { vi with visits := (vi.visits.eraseIdx p).insertIdx q x }) }
      else
        let vj := vehicleAt plan j
        { plan with vehicles :=
            ((plan.vehicles.set i { vi with visits := vi.visits.eraseIdx p }).set j
              { vj with visits := vj.visits.insertIdx q x }) }
  | .swap i p j q =>
      let vi := vehicleAt plan i
      let x := vi.visits.getD p default
      if i = j then
        let y := vi.visits.getD q default
        { plan with vehicles := (plan.vehicles.set i
            { vi with visits := (vi.visits.set p y).set q x }) }
      else
        let vj := vehicleAt plan j
        let y := vj.visits.getD q default
        { plan with vehicles :=
            ((plan.vehicles.set i { vi with visits := vi.visits.set p y }).set j
              { vj with visits := vj.visits.set q x }) }
  | .segmentReverse i lo hi =>
      let vi := vehicleAt plan i
      { plan with vehicles := (plan.vehicles.set i
          { vi with visits :=
              (vi.visits.take lo ++ ((vi.visits.drop lo).take (hi - lo)).reverse ++
                vi.visits.drop hi) }) }

/-- Modelled from the spec: a Move is legal when every vehicle index and
position it references exists in the solution. -/
def Move.legal (plan : RoutingPlan) : Move → Prop
  | .relocate i p j q =>
      i < plan.vehicles.length ∧ j < plan.vehicles.length ∧
      p < (vehicleAt plan i).visits.length ∧
      (if i = j then q + 1 ≤ (vehicleAt plan i).visits.length
       else q ≤ (vehicleAt plan j).visits.length)
  | .swap i p j q =>
      i < plan.vehicles.length ∧ j < plan.vehicles.length ∧
      p < (vehicleAt plan i).visits.length ∧ q < (vehicleAt plan j).visits.length
  | .segmentReverse i lo hi =>
      i < plan.vehicles.length ∧ lo ≤ hi ∧ hi ≤ (vehicleAt plan i).visits.length

/-- The vehicle indices a Move touches: one vehicle, or two for a
cross-vehicle relocate or swap. -/
def Move.affected : Move → List ℕ
  | .relocate i _ j _ => if i = j then [i] else [i, j]
  | .swap i _ j _ => if i = j then [i] else [i, j]
  | .segmentReverse i _ _ => [i]

/-- Sum of the total distances of the vehicles of a list at the given
indices; none as soon as one total fails a dictionary lookup. -/
def sumAt (vs : List Vehicle) : List ℕ → Option ℤ
  | [] => some 0
  | i :: rest => do
      let d ← (vs.getD i default).total_distance
      let r ← sumAt vs rest
      pure (d + r)

/-- Modelled from the spec: delta_score computes only the change a candidate
Move induces, without mutating the solution, by re-summing just the affected
vehicles' routes (at most two vehicles): the old affected totals minus the
new affected totals, the full score being the negated total sum. -/
def delta_score (plan : RoutingPlan) (m : Move) : Option ℤ := do
  let old ← sumAt plan.vehicles m.affected
  let new ← sumAt (m.apply plan).vehicles m.affected
  pure (old - new)

theorem getD_set_self {α : Type} [Inhabited α] {vs : List α} {i : ℕ}
    (h : i < vs.length) (w : α) : (vs.set i w).getD i default = w := by
  rw [List.getD_eq_getElem?_getD, List.getElem?_set_self h]
  rfl

theorem getD_set_ne {α : Type} [Inhabited α] {vs : List α} {i j : ℕ}
    (h : i ≠ j) (w : α) : (vs.set i w).getD j default = vs.getD j default := by
  rw [List.getD_eq_getElem?_getD, List.getElem?_set_ne h, ← List.getD_eq_getElem?_getD]

theorem totalsSum_set {vs : List Vehicle} {i : ℕ} {s ti tw : ℤ} {w : Vehicle}
    (hi : i < vs.length) (hs : totalsSum vs = some s)
    (hti : (vs.getD i default).total_distance = some ti)
    (htw : w.total_distance = some tw) :
    totalsSum (vs.set i w) = some (s - ti + tw) := by
  induction vs generalizing i s with
  | nil => simp at hi
  | cons v vs ih =>
      simp only [totalsSum, Option.bind_eq_bind, Option.bind_eq_some] at hs
      rcases hs with ⟨d, hd, r, hr, hsum⟩
      have hdr : d + r = s := by simpa using hsum
      cases i with
      | zero =>
          have hti0 : ti = d := by
            have h0 : (v :: vs).getD 0 default = v := rfl
            rw [h0, hd] at hti
            exact (Option.some_inj.1 hti).symm
          show totalsSum (w :: vs) = some (s - ti + tw)
          simp only [totalsSum, Option.bind_eq_bind, htw, hr, Option.some_bind]
          exact congrArg some (by omega)
      | succ i =>
          have hti1 : (vs.getD i default).total_distance = some ti := by
            simpa using hti
          have hrec : totalsSum (vs.set i w) = some (r - ti + tw) :=
            ih (by simpa using hi) hr hti1
          show totalsSum (v :: vs.set i w) = some (s - ti + tw)
          simp only [totalsSum, Option.bind_eq_bind, hd, hrec, Option.some_bind]
          exact congrArg some (by omega)

theorem sumAt_single (vs : List Vehicle) (i : ℕ) :
    sumAt vs [i] = (vs.getD i default).total_distance := by
  show ((vs.getD i default).total_distance.bind
      (fun d => (sumAt vs []).bind (fun r => some (d + r)))) = _
  cases (vs.getD i default).total_distance <;> simp [sumAt]

theorem sumAt_pair (vs : List Vehicle) (i j : ℕ) :
    sumAt vs [i, j] = (vs.getD i default).total_distance.bind
      (fun a => (vs.getD j default).total_distance.map (fun b => a + b)) := by
  show ((vs.getD i default).total_distance.bind
      (fun d => (sumAt vs [j]).bind (fun r => some (d + r)))) = _
  rw [sumAt_single]
  cases (vs.getD i default).total_distance <;>
    cases (vs.getD j default).total_distance <;> simp

theorem score_set_one {vs : List Vehicle} {i : ℕ} {w : Vehicle} {s o n : ℤ}
    (hi : i < vs.length) (hs : totalsSum vs = some s)
    (ho : sumAt vs [i] = some o) (hn : sumAt (vs.set i w) [i] = some n) :
    totalsSum (vs.set i w) = some (s - o + n) := by
  rw [sumAt_single] at ho hn
  rw [getD_set_self hi w] at hn
  exact totalsSum_set hi hs ho hn

theorem score_set_two {vs : List Vehicle} {i j : ℕ} {a b : Vehicle} {s o n : ℤ}
    (hij : i ≠ j) (hi : i < vs.length) (hj : j < vs.length)
    (hs : totalsSum vs = some s)
    (ho : sumAt vs [i, j] = some o)
    (hn : sumAt ((vs.set i a).set j b) [i, j] = some n) :
    totalsSum ((vs.set i a).set j b) = some (s - o + n) := by
  rw [sumAt_pair] at ho hn
  rcases Option.bind_eq_some.1 ho with ⟨ti, hti, ho2⟩
  rcases Option.map_eq_some'.1 ho2 with ⟨tj, htj, ho3⟩
  have hgi : ((vs.set i a).set j b).getD i default = a := by
    rw [getD_set_ne (fun h => hij h.symm) b, getD_set_self hi a]
  have hgj : ((vs.set i a).set j b).getD j default = b := by
    rw [getD_set_self (by simpa using hj) b]
  rw [hgi, hgj] at hn
  rcases Option.bind_eq_some.1 hn with ⟨ta, hta, hn2⟩
  rcases Option.map_eq_some'.1 hn2 with ⟨tb, htb, hn3⟩
  have step1 : totalsSum (vs.set i a) = some (s - ti + ta) :=
    totalsSum_set hi hs hti hta
  have hgj2 : ((vs.set i a).getD j default).total_distance = some tj := by
    rw [getD_set_ne hij a]
    exact htj
  have step2 : totalsSum ((vs.set i a).set j b) =
      some ((s - ti + ta) - tj + tb) :=
    totalsSum_set (by simpa using hj) step1 hgj2 htb
  rw [step2]
  exact congrArg some (by omega)

theorem full_score_decomp {plan : RoutingPlan} {fs : ℤ}
    (hfs : full_score plan = some fs) :
    ∃ s, totalsSum plan.vehicles = some s ∧ fs = -s := by
  unfold full_score at hfs
  cases h : totalsSum plan.vehicles with
  | none => rw [h] at hfs; simp at hfs
  | some s =>
      rw [h] at hfs
      have h2 : -s = fs := by simpa using hfs
      exact ⟨s, rfl, h2.symm⟩

theorem delta_decomp {plan : RoutingPlan} {m : Move} {d : ℤ}
    (hd : delta_score plan m = some d) :
    ∃ o n, sumAt plan.vehicles m.affected = some o ∧
      sumAt (m.apply plan).vehicles m.affected = some n ∧ d = o - n := by
  simp only [delta_score, Option.bind_eq_bind, Option.bind_eq_some] at hd
  rcases hd with ⟨o, ho, n, hn, hd3⟩
  exact ⟨o, n, ho, hn, by simpa using hd3.symm⟩

/-- C4: for every Solution and every legal Move on it, the full score of the
applied Solution equals the full score of the original Solution plus the
delta score of the Move, exactly; delta_score reads the Solution without
mutating it. -/
theorem claim_c4 (plan : RoutingPlan) (m : Move) (hl : m.legal plan) (fs d : ℤ)
    (hfs : full_score plan = some fs) (hd : delta_score plan m = some d) :
    full_score (m.apply plan) = some (fs + d) := by
  rcases full_score_decomp hfs with ⟨s, hs, hfss⟩
  rcases delta_decomp hd with ⟨o, n, ho, hn, hdon⟩
  subst hfss
  subst hdon
  cases m with
  | relocate i p j q =>
      by_cases hij : i = j
      · subst hij
        obtain ⟨h1, -, -, -⟩ := hl
        have haff : (Move.relocate i p i q).affected = [i] := by
          simp [Move.affected]
        have happ : ((Move.relocate i p i q).apply plan).vehicles =
            plan.vehicles.set i
              { vehicleAt plan i with visits :=
                  (((vehicleAt plan i).visits.eraseIdx p).insertIdx q
                    ((vehicleAt plan i).visits.getD p default)) } := by
          simp [Move.apply]
        rw [haff] at ho hn
        rw [happ] at hn
        unfold full_score
        rw [happ, score_set_one h1 hs ho hn]
        exact congrArg some (show -(s - o + n) = -s + (o - n) by omega)
      · obtain ⟨h1, h2, -, -⟩ := hl
        have haff : (Move.relocate i p j q).affected = [i, j] := by
          simp [Move.affected, hij]
        have happ : ((Move.relocate i p j q).apply plan).vehicles =
            (plan.vehicles.set i
              { vehicleAt plan i with visits := (vehicleAt plan i).visits.eraseIdx p }).set j
              { vehicleAt plan j with visits :=
                  ((vehicleAt plan j).visits.insertIdx q
                    ((vehicleAt plan i).visits.getD p default)) } := by
          simp [Move.apply, hij]
        rw [haff] at ho hn
        rw [happ] at hn
        unfold full_score
        rw [happ, score_set_two hij h1 h2 hs ho hn]
        exact congrArg some (show -(s - o + n) = -s + (o - n) by omega)
  | swap i p j q =>
      by_cases hij : i = j
      · subst hij
        obtain ⟨h1, -, -, -⟩ := hl
        have haff : (Move.swap i p i q).affected = [i] := by
          simp [Move.affected]
        have happ : ((Move.swap i p i q).apply plan).vehicles =
            plan.vehicles.set i
              { vehicleAt plan i with visits :=
                  (((vehicleAt plan i).visits.set p
                      ((vehicleAt plan i).visits.getD q default)).set q
                    ((vehicleAt plan i).visits.getD p default)) } := by
          simp [Move.apply]
        rw [haff] at ho hn
        rw [happ] at hn
        unfold full_score
        rw [happ, score_set_one h1 hs ho hn]
        exact congrArg some (show -(s - o + n) = -s + (o - n) by omega)
      · obtain ⟨h1, h2, -, -⟩ := hl
        have haff : (Move.swap i p j q).affected = [i, j] := by
          simp [Move.affected, hij]
        have happ : ((Move.swap i p j q).apply plan).vehicles =
            (plan.vehicles.set i
              { vehicleAt plan i with visits :=
                  ((vehicleAt plan i).visits.set p
                    ((vehicleAt plan j).visits.getD q default)) }).set j
              { vehicleAt plan j with visits :=
                  ((vehicleAt plan j).visits.set q
                    ((vehicleAt plan i).visits.getD p default)) } := by
          simp [Move.apply, hij]
        rw [haff] at ho hn
        rw [happ] at hn
        unfold full_score
        rw [happ, score_set_two hij h1 h2 hs ho hn]
        exact congrArg some (show -(s - o + n) = -s + (o - n) by omega)
  | segmentReverse i lo hi =>
      obtain ⟨h1, -, -⟩ := hl
      have haff : (Move.segmentReverse i lo hi).affected = [i] := rfl
      have happ : ((Move.segmentReverse i lo hi).apply plan).vehicles =
          plan.vehicles.set i
            { vehicleAt plan i with visits :=
                ((vehicleAt plan i).visits.take lo ++
                  (((vehicleAt plan i).visits.drop lo).take (hi - lo)).reverse ++
                  (vehicleAt plan i).visits.drop hi) } := by
        simp [Move.apply]
      rw [haff] at ho hn
      rw [happ] at hn
      unfold full_score
      rw [happ, score_set_one h1 hs ho hn]
      exact congrArg some (show -(s - o + n) = -s + (o - n) by omega)

/-- A concrete location with id 0 and a full literal distance dictionary. -/
noncomputable def locA : Location := ⟨0, 0, 0, [(0, 0), (1, 10), (2, 20)]⟩

/-- A concrete location with id 1 and a full literal distance dictionary. -/
noncomputable def locB : Location := ⟨1, 0, 0, [(0, 10), (1, 0), (2, 30)]⟩

/-- A concrete location with id 2 and a full literal distance dictionary. -/
noncomputable def locC : Location := ⟨2, 0, 0, [(0, 20), (1, 30), (2, 0)]⟩

/-- A concrete two-vehicle plan for exercising a cross-vehicle swap. -/
noncomputable def planW : RoutingPlan :=
  ⟨[⟨locA, [locB]⟩, ⟨locB, [locC]⟩], [locA, locB, locC], none⟩

/-- A concrete cross-vehicle swap exchanging the two vehicles' first
visits. -/
def moveW : Move := Move.swap 0 0 1 0

/-- Witness for C4: on the concrete plan planW the swap moveW is legal, the
full score evaluates to -80, the delta score to 40, and the applied plan's
full score to -80 + 40. -/
theorem claim_c4_witness :
    Move.legal planW moveW ∧ full_score planW = some (-80) ∧
    delta_score planW moveW = some 40 ∧
    full_score (moveW.apply planW) = some (-80 + 40) := by
  have hl : Move.legal planW moveW := by
    refine ⟨?_, ?_, ?_, ?_⟩ <;> decide
  have hfs : full_score planW = some (-80) := by decide
  have hd : delta_score planW moveW = some 40 := by decide
  exact ⟨hl, hfs, hd, claim_c4 planW moveW hl (-80) 40 hfs hd⟩

/-!
A deterministic hill-climbing local-search loop, modelled from the spec
(sections 4.3 and 4.5): exhaustive move enumeration, best non-worsening
candidate accepted each step (first enumerated on ties), no-op step when
none qualifies. It consumes no randomness, so run-to-run determinism
reduces to the determinism of the seeded problem generator.
-/

/-- Modelled from the spec: exhaustive enumeration of candidate Moves of
all three kinds over the current solution's vehicle indices and
positions. -/
def allMoves (plan : RoutingPlan) : List Move :=
  let nv := plan.vehicles.length
  ((List.range nv).flatMap (fun i =>
    (List.range (vehicleAt plan i).visits.length).flatMap (fun p =>
      (List.range nv).flatMap (fun j =>
        (List.range ((vehicleAt plan j).visits.length + 1)).map (fun q =>
          Move.relocate i p j q)))))
  ++ ((List.range nv).flatMap (fun i =>
    (List.range (vehicleAt plan i).visits.length).flatMap (fun p =>
      (List.range nv).flatMap (fun j =>
        (List.range (vehicleAt plan j).visits.length).map (fun q =>
          Move.swap i p j q)))))
  ++ ((List.range nv).flatMap (fun i =>
    (List.range ((vehicleAt plan i).visits.length + 1)).flatMap (fun lo =>
      (List.range ((vehicleAt plan i).visits.length + 1)).map (fun hi =>
        Move.segmentReverse i lo hi))))

/-- Modelled from the spec: the hill-climbing selection, scanning the
candidates in enumeration order and keeping the first candidate of maximal
nonnegative delta score (the full score being maximized, a nonnegative
delta never worsens). -/
def pickBest (plan : RoutingPlan) : Option (Move × ℤ) :=
  (allMoves plan).foldl
    (fun best m =>
      match delta_score plan m with
      | none => best
      | some dm =>
          match best with
          | none => if 0 ≤ dm then some (m, dm) else none
          | some (bm, bd) => if bd < dm then some (m, dm) else some (bm, bd))
    none

/-- Modelled from the spec: one hill-climbing step applies the selected
move, or keeps the solution unchanged when no candidate qualifies. -/
def hcStep (plan : RoutingPlan) : RoutingPlan :=
  match pickBest plan with
  | some (m, _) => m.apply plan
  | none => plan

/-- Modelled from the spec: the bounded improvement loop of the local
search engine, running a fixed number of steps. -/
def localSearch : ℕ → RoutingPlan → RoutingPlan
  | 0, plan => plan
  | n + 1, plan => localSearch n (hcStep plan)

theorem generate_problem_deterministic {c1 p1 c2 p2 : ℕ → ℕ}
    (hc : ∀ n < 200, c1 n = c2 n) (hp : ∀ n < 4, p1 n = p2 n) :
    generate_problem c1 p1 = generate_problem c2 p2 := by
  have hbase : ∀ i < 100, baseLoc c1 i = baseLoc c2 i := by
    intro i hi
    unfold baseLoc
    rw [hc (2 * i) (by omega), hc (2 * i + 1) (by omega)]
  have hloc : ∀ i < 100, genLocation c1 i = genLocation c2 i := by
    intro i hi
    unfold genLocation
    rw [hbase i hi]
    have hmap : List.map
        (fun j : ℕ => ((j : ℤ), (baseLoc c2 i).distance_to (baseLoc c1 j)))
        (List.range 100) =
      List.map (fun j : ℕ => ((j : ℤ), (baseLoc c2 i).distance_to (baseLoc c2 j)))
        (List.range 100) := by
      apply List.map_congr_left
      intro j hj
      rw [hbase j (List.mem_range.1 hj)]
    rw [hmap]
  have hlocs : genLocations c1 = genLocations c2 := by
    unfold genLocations
    apply List.map_congr_left
    intro i hi
    exact hloc i (List.mem_range.1 hi)
  unfold generate_problem
  rw [hlocs]
  congr 1
  apply List.map_congr_left
  intro k hk
  rw [hp k (List.mem_range.1 hk)]

/-- C7: two runs with identical problem input, seed-derived draw sequences
and configuration produce identical RoutingPlans from the generator (same
ids, coordinates, distance mappings and start locations), and identical
final Solutions and Scores after any number of deterministic local-search
steps; the generator reads only its first 200 coordinate draws and 4 choice
draws. -/
theorem claim_c7 (steps : ℕ) (cA pA cB pB : ℕ → ℕ)
    (hc : ∀ n < 200, cA n = cB n) (hp : ∀ n < 4, pA n = pB n) :
    generate_problem cA pA = generate_problem cB pB ∧
    localSearch steps (generate_problem cA pA) =
      localSearch steps (generate_problem cB pB) ∧
    full_score (localSearch steps (generate_problem cA pA)) =
      full_score (localSearch steps (generate_problem cB pB)) := by
  have hgen := generate_problem_deterministic hc hp
  exact ⟨hgen, by rw [hgen], by rw [hgen]⟩

/-- Witness for C7: instantiating both runs with the all-zero draw
sequences and three steps, the hypotheses hold trivially and the runs
coincide. -/
theorem claim_c7_witness :
    localSearch 3 (generate_problem (fun _ => 0) (fun _ => 0)) =
      localSearch 3 (generate_problem (fun _ => 0) (fun _ => 0)) :=
  (claim_c7 3 (fun _ => 0) (fun _ => 0) (fun _ => 0) (fun _ => 0)
    (fun _ _ => rfl) (fun _ _ => rfl)).2.1

end VRP
